import Mathlib

/-!
Verification of the card evaluation and scoring engine of the
MTGA_Draft_17Lands drafting assistant.

The repository sources available here are the test suites
(`tests/test_card_logic.py`, `tests/test_color_scores.py`) and the
`verify_best_columns.py` script.  Pure logic that appears literally in those
files (the `_calculate_contributions` helper, the color-score formula, the
normalization arithmetic) is translated directly.  Engine functions that live
in `src/card_logic.py` (not part of the sources) are modelled from the
specification, as marked in their doc comments.

Python dictionaries are embedded as association lists, which preserve the
insertion order that Python dictionaries guarantee; floats are embedded as
rationals.
-/

/-- A pip count map: association list from a color letter to its fractional
pip weight, mirroring a Python `dict` with its insertion order. -/
abbrev PipCounts := List (Char × ℚ)

/-- Dictionary lookup with default 0 (a color absent from the map has no
pips). -/
def pipLookup (m : PipCounts) (c : Char) : ℚ :=
  match m.find? (fun e => e.1 = c) with
  | some e => e.2
  | none => 0

/-- Dictionary insertion used by the pip accumulator: add `w` to an existing
key in place (keeping its position) or append a new key at the end, exactly
as Python `d[k] = d.get(k, 0) + w` behaves. -/
def addPip (m : PipCounts) (c : Char) (w : ℚ) : PipCounts :=
  if m.any (fun e => e.1 = c) then
    m.map (fun e => if e.1 = c then (e.1, e.2 + w) else e)
  else m ++ [(c, w)]

/-- The five colors recognized by the parser. -/
def colorLetters : List Char := ['W', 'U', 'B', 'R', 'G']

def isColor (c : Char) : Bool := colorLetters.contains c

/-- Split a mana-cost character stream into the bracketed tokens:
characters between `\x7b` and `\x7d` are collected, everything outside
brackets is discarded. -/
def tokenizeAux : List Char → Option (List Char) → List (List Char)
  | [], _ => []
  | ch :: rest, none =>
    if ch = '{' then tokenizeAux rest (some [])
    else tokenizeAux rest none
  | ch :: rest, some acc =>
    if ch = '}' then acc.reverse :: tokenizeAux rest none
    else tokenizeAux rest (some (ch :: acc))

def tokenize (s : String) : List (List Char) := tokenizeAux s.toList none

/-- Modelled from the spec: the per-token parsing rules of the pip
extractor (§4.1) — the implementation `extract_colored_pips` lives in
`src/card_logic.py`, which is not among the sources; its behavior is pinned
by `EXTRACT_PIPS_TESTS` in `tests/test_card_logic.py`.  The token is
uppercased first (case-insensitive parsing); a plain number or `X`
contributes nothing; a single color letter contributes 1; a two-color hybrid
contributes 1/2 to each color; a generic-or-color or Phyrexian hybrid
contributes 1/2 to its one color; any other token contributes nothing. -/
def tokenPips (t : List Char) : List (Char × ℚ) :=
  match t.map Char.toUpper with
  | [a] => if isColor a then [(a, 1)] else []
  | [a, '/', b] =>
    if isColor a && isColor b then [(a, 1/2), (b, 1/2)]
    else if a = '2' && isColor b then [(b, 1/2)]
    else if isColor a && b = 'P' then [(a, 1/2)]
    else []
  | _ => []

def accumulateTokens (toks : List (List Char)) : PipCounts :=
  toks.foldl (fun m t => (tokenPips t).foldl (fun m' e => addPip m' e.1 e.2) m) []

/-- Modelled from the spec: `extract_colored_pips` of `src/card_logic.py`
(absent from the sources).  Absent (`none`) or empty input yields an empty
map; otherwise the bracketed tokens are parsed case-insensitively and their
weights accumulate additively per color (§4.1, §8). -/
def extract_colored_pips : Option String → PipCounts
  | none => []
  | some s => accumulateTokens (tokenize s)

/-- Whether `q` is integral, exactly when Python's `q == int(q)` holds. -/
def isIntegral (q : ℚ) : Bool := q.den = 1

def sumVals (m : PipCounts) : ℚ := (m.map Prod.snd).sum

/-- Translated from `TestColorContributions._calculate_contributions` in
`tests/test_color_scores.py`, the in-repo replica of
`__calculate_color_contributions`: empty map gives no contributions; a
single-color map gives that color `base / pips`; a multi-color map whose
weights are all non-integral divides `base` by `sum(weights)/2` and splits
evenly; otherwise inverse-pip weighting normalized by the total inverse
weight. -/
def calculate_color_contributions (base : ℚ) (pip_counts : PipCounts) : PipCounts :=
  match pip_counts with
  | [] => []
  | [(c, p)] => [(c, base / p)]
  | _ =>
    if pip_counts.all (fun e => !isIntegral e.2) then
      let actual_hybrid_pips := sumVals pip_counts / 2
      let total_contribution := base / actual_hybrid_pips
      let per_color := total_contribution / (pip_counts.length : ℚ)
      pip_counts.map (fun e => (e.1, per_color))
    else
      let total_inverse := (pip_counts.map (fun e => 1 / e.2)).sum
      pip_counts.map (fun e => (e.1, base * ((1 / e.2) / total_inverse)))

/-- Translated from `TestColorScoreFormula` in `tests/test_color_scores.py`:
`safe_ata = max(ata, 1.0)`; `base = (pick * (pick - ata)) / safe_ata`. -/
def color_score_base (pick ata : ℚ) : ℚ := pick * (pick - ata) / max ata 1

/-- Statistics of one color-filter subset: field name → numeric value. -/
abbrev StatMap := List (String × ℚ)

/-- Lookup `stats.get(field)`: `none` when the field is absent. -/
def statLookup (s : StatMap) (k : String) : Option ℚ :=
  match s.find? (fun e => e.1 = k) with
  | some e => some e.2
  | none => none

/-- Lookup `stats.get(field, 0)` with numeric default 0. -/
def statOr (s : StatMap) (k : String) : ℚ := (statLookup s k).getD 0

/-- The `deck_colors` sub-mapping of a card record: filter identifier →
statistics. -/
abbrev DeckColors := List (String × StatMap)

def deckLookup (dc : DeckColors) (f : String) : Option StatMap :=
  match dc.find? (fun e => e.1 = f) with
  | some e => some e.2
  | none => none

def ALL_DECKS : String := "All Decks"

/-- A card record: only the `deck_colors` member matters for the value
resolver; a record may lack it entirely. -/
structure CardRec where
  deck_colors : Option DeckColors

/-- Modelled from the spec: `CardResult.__process_ata` of
`src/card_logic.py` (absent from the sources; behavior pinned by
`TestProcessATA` in `tests/test_color_scores.py`).  The unknown sentinel
(`constants.RESULT_UNKNOWN_STRING`) is embedded as `none`: a record without
`deck_colors`, a missing filter, a missing ATA field, or an ATA value of
exactly zero all yield the sentinel; otherwise the raw value is returned
(§4.2, §7). -/
def process_ata (card : CardRec) (filt : String) : Option ℚ :=
  match card.deck_colors with
  | none => none
  | some dc =>
    match deckLookup dc filt with
    | none => none
    | some stats =>
      match statLookup stats "ata" with
      | none => none
      | some v => if v = 0 then none else some v

/-- The color-filter subsets whose sample size meets the configured
minimum threshold (a missing sample field counts as 0; a threshold of 0
therefore disables the filter). -/
def qualifying (dc : DeckColors) (sampleField : String) (threshold : ℚ) : DeckColors :=
  dc.filter (fun e => threshold ≤ statOr e.2 sampleField)

/-- Left-to-right maximum scan: the accumulator is replaced only by a
strictly greater field value, so the first-encountered subset wins ties. -/
def pickBest (field : String) : DeckColors → (String × ℚ) → (String × ℚ)
  | [], acc => acc
  | e :: rest, acc =>
    pickBest field rest (if acc.2 < statOr e.2 field then (e.1, statOr e.2 field) else acc)

/-- Modelled from the spec: `CardResult.__process_best_performance` of
`src/card_logic.py` (absent from the sources; behavior pinned by the best
performance tests in `tests/test_card_logic.py` and
`verify_best_columns.py`).  Every subset whose sample size meets the
threshold is scanned; among the qualifying subsets the one with the maximum
field value is selected, ties broken first-encountered-wins in iteration
order; if no subset qualifies, the result falls back to the `All Decks`
subset regardless of its sample size (§4.2). -/
def process_best_performance (dc : DeckColors) (field sampleField : String)
    (threshold : ℚ) : String × ℚ :=
  match qualifying dc sampleField threshold with
  | [] =>
    match deckLookup dc ALL_DECKS with
    | some s => (ALL_DECKS, statOr s field)
    | none => (ALL_DECKS, 0)
  | q :: qs => pickBest field qs (q.1, statOr q.2 field)

def FILTER_BEST_GIHWR : String := "Best GIHWR"

/-- Modelled from the spec: the reserved select-best identifier used as a
color filter for a different data field (§4.2); the engine first resolves
the best-color subset for the GIHWR field (sample field GIH), then reads
the requested field from that same subset.  Behavior pinned by
`test_best_gihwr_filter_usage` in `tests/test_card_logic.py`. -/
def resolve_field (dc : DeckColors) (threshold : ℚ) (filt reqField : String) : ℚ :=
  if filt = FILTER_BEST_GIHWR then
    match deckLookup dc (process_best_performance dc "gihwr" "gih" threshold).1 with
    | some s => statOr s reqField
    | none => 0
  else
    match deckLookup dc filt with
    | some s => statOr s reqField
    | none => 0

/-- Clamp `v` into `[lo, hi]`. -/
def clampQ (v lo hi : ℚ) : ℚ := max lo (min v hi)

/-- Round to one decimal place (the spec does not fix the tie-breaking
mode; ties round half away from zero toward positive infinity here, which
agrees with the spec on every value it mentions). -/
def round1 (q : ℚ) : ℚ := (round (q * 10) : ℚ) / 10

/-- Modelled from the spec: the 0.0–5.0 rating conversion of §4.3
(`src/card_logic.py` is absent from the sources; behavior pinned by
`test_best_gihwr_rating` in `verify_best_columns.py`).
`upper = mean + std*2`, `lower = mean + std*(-1.67)`; `v` is clamped into
`[lower, upper]`; the rating is `(v - lower) / (upper - lower) * 5.0`
rounded to one decimal place; a zero or non-positive range yields 0.0
instead of a division fault. -/
def process_rating (v mean std : ℚ) : ℚ :=
  let upper := mean + std * 2
  let lower := mean + std * (-167/100)
  if upper - lower ≤ 0 then 0
  else round1 ((clampQ v lower upper - lower) / (upper - lower) * 5)

/-- Per-color running color scores (association list, like the `dict`
used by the tests in `tests/test_color_scores.py`). -/
abbrev Scores := List (Char × ℚ)

/-- Modelled from the spec: normalization of the color-score accumulator
for display (§4.5; the per-color arithmetic appears literally in
`TestNormalizedScores` of `tests/test_color_scores.py`):
`total_abs = sum(|score_c|)`; each color displays `score_c / total_abs *
100`, signed; a zero `total_abs` displays 0.0 for every color instead of
dividing by zero. -/
def normalize_color_scores (scores : Scores) : Scores :=
  let total_abs := (scores.map (fun e => |e.2|)).sum
  if total_abs = 0 then scores.map (fun e => (e.1, 0))
  else scores.map (fun e => (e.1, e.2 / total_abs * 100))

/-! ### Helper lemmas for the contribution distribution -/

lemma ccc_single (base : ℚ) (c : Char) (p : ℚ) :
    calculate_color_contributions base [(c, p)] = [(c, base / p)] := rfl

lemma ccc_cons₂ (base : ℚ) (a b : Char × ℚ) (t : PipCounts) :
    calculate_color_contributions base (a :: b :: t)
      = if (a :: b :: t).all (fun e => !isIntegral e.2) then
          (a :: b :: t).map
            (fun e => (e.1, base / (sumVals (a :: b :: t) / 2) / (((a :: b :: t).length : ℚ))))
        else
          (a :: b :: t).map
            (fun e => (e.1, base * ((1 / e.2) / ((a :: b :: t).map (fun x => 1 / x.2)).sum))) := rfl

lemma isIntegral_half : isIntegral ((2:ℚ)⁻¹) = false := by
  simp only [isIntegral, decide_eq_false_iff_not]
  intro h
  have h2 : ((2:ℚ)⁻¹) = ((((2:ℚ)⁻¹).num : ℚ)) := ((Rat.den_eq_one_iff _).mp h).symm
  have h3 : (2:ℚ) * ((2:ℚ)⁻¹) = 1 := by norm_num
  rw [h2] at h3
  have h4 : (2 * ((2:ℚ)⁻¹).num : ℤ) = 1 := by exact_mod_cast h3
  omega

lemma sumVals_map_snd (l : PipCounts) (f : Char × ℚ → ℚ) :
    sumVals (l.map (fun e => (e.1, f e))) = (l.map f).sum := by
  simp only [sumVals, List.map_map]
  rfl

/-! ### Claims about the contribution distribution and the score formula -/

/-- C1: for every non-empty pip-count map and every base score, the
contribution distribution follows exactly three branches: a single-color map
`[(c, p)]` gives color `c` exactly `base / p`; a multi-color map in which
every weight is non-integral (pure hybrid cost) divides `base` by
`sum(weights)/2` and splits the quotient evenly across the colors (so base 6
over `W:1/2, U:1/2` gives `W = 6` and `U = 6`); any other multi-color map
(at least one integral pip) gives each color a share proportional to
`1/pips`, normalized so the shares sum to `base` exactly (so base 6 over
`W:2, U:1` gives `W = 2` and `U = 4`, and two equal integral-pip colors
split base 6 into 3 and 3). -/
theorem c1_contribution_distribution (base : ℚ) (pc : PipCounts)
    (hne : pc ≠ []) (hpos : ∀ e ∈ pc, 0 < e.2) :
    (∀ c p, pc = [(c, p)] → calculate_color_contributions base pc = [(c, base / p)]) ∧
    (2 ≤ pc.length → (∀ e ∈ pc, isIntegral e.2 = false) →
      calculate_color_contributions base pc
        = pc.map (fun e => (e.1, base / (sumVals pc / 2) / (pc.length : ℚ)))) ∧
    (2 ≤ pc.length → (∃ e ∈ pc, isIntegral e.2 = true) →
      calculate_color_contributions base pc
        = pc.map (fun e => (e.1, base * ((1 / e.2) / ((pc.map (fun x => 1 / x.2)).sum))))
        ∧ sumVals (calculate_color_contributions base pc) = base) ∧
    calculate_color_contributions 6 [('W', 1/2), ('U', 1/2)] = [('W', 6), ('U', 6)] ∧
    calculate_color_contributions 6 [('W', 2), ('U', 1)] = [('W', 2), ('U', 4)] ∧
    calculate_color_contributions 6 [('W', 1), ('U', 1)] = [('W', 3), ('U', 3)] := by
  refine ⟨?_, ?_, ?_, ?_, ?_, ?_⟩
  · intro c p hpc
    rw [hpc]
    exact ccc_single base c p
  · intro hlen hint
    match pc, hne with
    | a :: b :: t, _ =>
      rw [ccc_cons₂, if_pos]
      simp only [List.all_eq_true, Bool.not_eq_true']
      exact fun e he => hint e he
  · intro hlen hex
    match pc, hne with
    | a :: b :: t, _ =>
      have hcond : ¬ ((a :: b :: t).all (fun e => !isIntegral e.2) = true) := by
        simp only [List.all_eq_true, Bool.not_eq_true']
        intro hall
        obtain ⟨e, he, hi⟩ := hex
        rw [hall e he] at hi
        exact Bool.false_ne_true hi
      have heq : calculate_color_contributions base (a :: b :: t)
          = (a :: b :: t).map
              (fun e => (e.1, base * ((1 / e.2) / ((a :: b :: t).map (fun x => 1 / x.2)).sum))) := by
        rw [ccc_cons₂, if_neg hcond]
      refine ⟨heq, ?_⟩
      set T : ℚ := ((a :: b :: t).map (fun x => 1 / x.2)).sum with hT
      have hTpos : 0 < T := by
        rw [hT]
        apply List.sum_pos
        · intro y hy
          obtain ⟨e, he, hey⟩ := List.mem_map.mp hy
          rw [← hey]
          exact one_div_pos.mpr (hpos e he)
        · simp
      rw [heq, sumVals_map_snd]
      have hfun : ((a :: b :: t).map (fun e => base * ((1 / e.2) / T)))
          = ((a :: b :: t).map (fun e => base / T * (1 / e.2))) := by
        apply List.map_congr_left
        intro e _
        rw [div_mul_eq_mul_div, mul_div_assoc]
      rw [hfun, List.sum_map_mul_left, ← hT]
      exact div_mul_cancel₀ base hTpos.ne'
  · rw [ccc_cons₂, if_pos (by simp [isIntegral_half])]
    norm_num [sumVals]
  · rw [ccc_cons₂, if_neg (by simp [isIntegral])]
    norm_num
  · rw [ccc_cons₂, if_neg (by simp [isIntegral])]
    norm_num

theorem c1_contribution_distribution_witness :
    calculate_color_contributions 6 [('W', 2), ('U', 1)] = [('W', 2), ('U', 4)] :=
  (c1_contribution_distribution 6 [('W', 2), ('U', 1)] (by decide) (by decide)).2.2.2.2.1

/-- C2: the color-score base for an observed pick `p` with a known ATA is
`p * (p - ata) / max(ata, 1)`: pick 5 with ata 3 gives `10/3`; the base is 0
when `p = ata`, negative when `p < ata`, and an ata below 1 is clamped to 1
before the division, so pick 5 with ata `1/2` gives `45/2` and ata 0 divides
by 1 (no division fault), giving 25 at pick 5. -/
theorem c2_color_score_formula (p ata : ℚ) (hp : 1 ≤ p) :
    color_score_base p ata = p * (p - ata) / max ata 1 ∧
    color_score_base 5 3 = 10 / 3 ∧
    (p = ata → color_score_base p ata = 0) ∧
    (p < ata → color_score_base p ata < 0) ∧
    (ata < 1 → color_score_base p ata = p * (p - ata)) ∧
    max (0 : ℚ) 1 = 1 ∧
    color_score_base 5 (1/2) = 45 / 2 ∧
    color_score_base 5 0 = 25 := by
  refine ⟨rfl, ?_, ?_, ?_, ?_, ?_, ?_, ?_⟩
  · rw [color_score_base, max_eq_left (by norm_num : (1:ℚ) ≤ 3)]
    norm_num
  · intro h
    simp [color_score_base, h]
  · intro h
    apply div_neg_of_neg_of_pos
    · exact mul_neg_of_pos_of_neg (lt_of_lt_of_le zero_lt_one hp) (sub_neg.mpr h)
    · exact lt_of_lt_of_le zero_lt_one (le_max_right ata 1)
  · intro h
    rw [color_score_base, max_eq_right h.le, div_one]
  · exact max_eq_right zero_le_one
  · rw [color_score_base, max_eq_right (by norm_num : (1:ℚ)/2 ≤ 1)]
    norm_num
  · rw [color_score_base, max_eq_right zero_le_one]
    norm_num

theorem c2_color_score_formula_witness : color_score_base 5 3 = 10 / 3 :=
  (c2_color_score_formula 5 3 (by decide)).2.1

/-- C10: the contribution distribution is homogeneous in the base score —
distributing `k * base` gives each color exactly `k` times the share it
receives for `base`; in particular a negative base distributes as the exact
negation of the corresponding positive base: base -6 over `W:1, B:1` gives
`W = -3` and `B = -3`. -/
theorem c10_contribution_homogeneity (pc : PipCounts) (base k : ℚ) (hne : pc ≠ []) :
    calculate_color_contributions (k * base) pc
      = (calculate_color_contributions base pc).map (fun e => (e.1, k * e.2)) ∧
    calculate_color_contributions (-6) [('W', 1), ('B', 1)] = [('W', -3), ('B', -3)] := by
  constructor
  · match pc, hne with
    | [(c, p)], _ =>
      rw [ccc_single, ccc_single]
      simp [mul_div_assoc]
    | a :: b :: t, _ =>
      rw [ccc_cons₂, ccc_cons₂]
      by_cases h : (a :: b :: t).all (fun e => !isIntegral e.2) = true
      · rw [if_pos h, if_pos h, List.map_map]
        apply List.map_congr_left
        intro e _
        simp only [Function.comp_apply]
        rw [mul_div_assoc, mul_div_assoc]
      · rw [if_neg h, if_neg h, List.map_map]
        apply List.map_congr_left
        intro e _
        simp only [Function.comp_apply]
        rw [mul_assoc]
  · rw [ccc_cons₂, if_neg (by simp [isIntegral])]
    norm_num

theorem c10_contribution_homogeneity_witness :
    calculate_color_contributions ((-1) * 6) [('W', 1), ('B', 1)]
      = (calculate_color_contributions 6 [('W', 1), ('B', 1)]).map (fun e => (e.1, (-1) * e.2)) :=
  (c10_contribution_homogeneity [('W', 1), ('B', 1)] 6 (-1) (by decide)).1

/-! ### Helper lemmas for best-performance selection -/

lemma pickBest_spec (field : String) (l : DeckColors) : ∀ acc : String × ℚ,
    (pickBest field l acc = acc ∧ ∀ e ∈ l, statOr e.2 field ≤ acc.2) ∨
    (∃ l1 e l2, l = l1 ++ e :: l2 ∧
      pickBest field l acc = (e.1, statOr e.2 field) ∧
      acc.2 < statOr e.2 field ∧
      (∀ x ∈ l1, statOr x.2 field < statOr e.2 field) ∧
      (∀ x ∈ l2, statOr x.2 field ≤ statOr e.2 field)) := by
  induction l with
  | nil =>
    intro acc
    left
    exact ⟨rfl, by simp⟩
  | cons hd tl ih =>
    intro acc
    by_cases hlt : acc.2 < statOr hd.2 field
    · have h1 : pickBest field (hd :: tl) acc = pickBest field tl (hd.1, statOr hd.2 field) := by
        simp [pickBest, hlt]
      rcases ih (hd.1, statOr hd.2 field) with ⟨heq, hall⟩ | ⟨l1, e, l2, hsplit, heq, hgt, hl1, hl2⟩
      · right
        refine ⟨[], hd, tl, rfl, ?_, hlt, by simp, ?_⟩
        · rw [h1, heq]
        · intro x hx
          exact hall x hx
      · right
        refine ⟨hd :: l1, e, l2, by rw [hsplit, List.cons_append], ?_, ?_, ?_, hl2⟩
        · rw [h1, heq]
        · exact hlt.trans hgt
        · intro x hx
          rcases List.mem_cons.mp hx with rfl | hx2
          · exact hgt
          · exact hl1 x hx2
    · have h1 : pickBest field (hd :: tl) acc = pickBest field tl acc := by
        simp [pickBest, hlt]
      rcases ih acc with ⟨heq, hall⟩ | ⟨l1, e, l2, hsplit, heq, hgt, hl1, hl2⟩
      · left
        refine ⟨by rw [h1, heq], ?_⟩
        intro x hx
        rcases List.mem_cons.mp hx with rfl | hx2
        · exact not_lt.mp hlt
        · exact hall x hx2
      · right
        refine ⟨hd :: l1, e, l2, by rw [hsplit, List.cons_append], by rw [h1, heq], hgt, ?_, hl2⟩
        intro x hx
        rcases List.mem_cons.mp hx with rfl | hx2
        · exact (not_lt.mp hlt).trans_lt hgt
        · exact hl1 x hx2

lemma process_best_nonempty (dc : DeckColors) (field sampleField : String) (threshold : ℚ)
    (q : String × StatMap) (qs : List (String × StatMap))
    (h : qualifying dc sampleField threshold = q :: qs) :
    ∃ l1 l2,
      (qualifying dc sampleField threshold).map (fun e => (e.1, statOr e.2 field))
        = l1 ++ (process_best_performance dc field sampleField threshold) :: l2
      ∧ (∀ x ∈ l1, x.2 < (process_best_performance dc field sampleField threshold).2)
      ∧ (∀ x ∈ l2, x.2 ≤ (process_best_performance dc field sampleField threshold).2) := by
  have hbp : process_best_performance dc field sampleField threshold
      = pickBest field qs (q.1, statOr q.2 field) := by
    unfold process_best_performance
    rw [h]
  rcases pickBest_spec field qs (q.1, statOr q.2 field) with ⟨heq, hall⟩ |
    ⟨l1, e, l2, hsplit, heq, hgt, hl1, hl2⟩
  · refine ⟨[], qs.map (fun e => (e.1, statOr e.2 field)), ?_, by simp, ?_⟩
    · rw [h, hbp, heq]
      simp
    · intro x hx
      obtain ⟨y, hy, hyx⟩ := List.mem_map.mp hx
      rw [hbp, heq, ← hyx]
      exact hall y hy
  · refine ⟨(q :: l1).map (fun e => (e.1, statOr e.2 field)),
      l2.map (fun e => (e.1, statOr e.2 field)), ?_, ?_, ?_⟩
    · rw [h, hsplit, hbp, heq]
      simp
    · intro x hx
      obtain ⟨y, hy, hyx⟩ := List.mem_map.mp hx
      rw [hbp, heq, ← hyx]
      rcases List.mem_cons.mp hy with rfl | hy2
      · exact hgt
      · exact hl1 y hy2
    · intro x hx
      obtain ⟨y, hy, hyx⟩ := List.mem_map.mp hx
      rw [hbp, heq, ← hyx]
      exact hl2 y hy

/-- C3: among the color-filter subsets whose sample size is at least the
configured minimum threshold, the subset with the maximum target-field value
is selected, ties broken first-encountered-wins in iteration order; a
threshold of 0 disables the filter; if no subset qualifies the result falls
back to the All Decks subset regardless of its sample size.  With threshold
50, a 70.0-win-rate subset with 30 games is skipped in favor of a 55.0
subset with 100 games; with threshold 100 over color subsets of 30 and 40
games the result is the All Decks value 50.0. -/
theorem c3_best_performance_selection (dc : DeckColors) (field sampleField : String)
    (threshold : ℚ) :
    (∀ q qs, qualifying dc sampleField threshold = q :: qs →
      ∃ l1 l2,
        (qualifying dc sampleField threshold).map (fun e => (e.1, statOr e.2 field))
          = l1 ++ process_best_performance dc field sampleField threshold :: l2
        ∧ (∀ x ∈ l1, x.2 < (process_best_performance dc field sampleField threshold).2)
        ∧ (∀ x ∈ l2, x.2 ≤ (process_best_performance dc field sampleField threshold).2)) ∧
    (qualifying dc sampleField threshold = [] →
      ∀ s, deckLookup dc ALL_DECKS = some s →
        process_best_performance dc field sampleField threshold = (ALL_DECKS, statOr s field)) ∧
    (threshold = 0 → (∀ e ∈ dc, 0 ≤ statOr e.2 sampleField) →
      qualifying dc sampleField threshold = dc) ∧
    process_best_performance
      [("All Decks", [("gihwr", 50), ("gih", 1000)]),
       ("W", [("gihwr", 70), ("gih", 30)]),
       ("U", [("gihwr", 55), ("gih", 100)])] "gihwr" "gih" 50 = ("U", 55) ∧
    process_best_performance
      [("All Decks", [("gihwr", 50), ("gih", 1000)]),
       ("W", [("gihwr", 60), ("gih", 30)]),
       ("U", [("gihwr", 55), ("gih", 40)])] "gihwr" "gih" 100 = ("All Decks", 50) ∧
    qualifying
      [("All Decks", [("gihwr", 50), ("gih", 30)]),
       ("W", [("gihwr", 60), ("gih", 30)]),
       ("U", [("gihwr", 55), ("gih", 40)])] "gih" 100 = [] ∧
    process_best_performance
      [("All Decks", [("gihwr", 50), ("gih", 30)]),
       ("W", [("gihwr", 60), ("gih", 30)]),
       ("U", [("gihwr", 55), ("gih", 40)])] "gihwr" "gih" 100 = ("All Decks", 50) := by
  refine ⟨?_, ?_, ?_, by decide, by decide, by decide, by decide⟩
  · intro q qs h
    exact process_best_nonempty dc field sampleField threshold q qs h
  · intro hq s hs
    unfold process_best_performance
    rw [hq, hs]
  · intro h0 hnn
    subst h0
    unfold qualifying
    apply List.filter_eq_self.mpr
    intro e he
    exact decide_eq_true (hnn e he)

theorem c3_best_performance_selection_witness :
    process_best_performance
      [("All Decks", [("gihwr", 50), ("gih", 30)]),
       ("W", [("gihwr", 60), ("gih", 30)]),
       ("U", [("gihwr", 55), ("gih", 40)])] "gihwr" "gih" 100
      = (ALL_DECKS, statOr [("gihwr", 50), ("gih", 30)] "gihwr") :=
  (c3_best_performance_selection
      [("All Decks", [("gihwr", 50), ("gih", 30)]),
       ("W", [("gihwr", 60), ("gih", 30)]),
       ("U", [("gihwr", 55), ("gih", 40)])] "gihwr" "gih" 100).2.1 (by decide)
    [("gihwr", 50), ("gih", 30)] (by decide)

/-- C4: when the reserved select-best identifier is used as the color
filter while requesting a different field, the engine resolves the
best-color subset for the GIHWR field and returns the requested field read
from that same subset — on a card whose best-GIHWR subset is U (gihwr 60,
alsa 7), requesting ALSA under the best-GIHWR filter returns 7.0, not the
All Decks ALSA 5.0. -/
theorem c4_best_filter_indirection (dc : DeckColors) (threshold : ℚ) (reqField : String) :
    (∀ s, deckLookup dc (process_best_performance dc "gihwr" "gih" threshold).1 = some s →
      resolve_field dc threshold FILTER_BEST_GIHWR reqField = statOr s reqField) ∧
    (process_best_performance
      [("All Decks", [("gihwr", 50), ("gih", 100), ("alsa", 5)]),
       ("W", [("gihwr", 55), ("gih", 50), ("alsa", 6)]),
       ("U", [("gihwr", 60), ("gih", 50), ("alsa", 7)])] "gihwr" "gih" 0).1 = "U" ∧
    resolve_field
      [("All Decks", [("gihwr", 50), ("gih", 100), ("alsa", 5)]),
       ("W", [("gihwr", 55), ("gih", 50), ("alsa", 6)]),
       ("U", [("gihwr", 60), ("gih", 50), ("alsa", 7)])] 0 FILTER_BEST_GIHWR "alsa" = 7 ∧
    statOr [("gihwr", 50), ("gih", 100), ("alsa", 5)] "alsa" = 5 := by
  refine ⟨?_, by decide, by decide, by decide⟩
  intro s hs
  unfold resolve_field
  rw [if_pos rfl, hs]

theorem c4_best_filter_indirection_witness :
    resolve_field
      [("All Decks", [("gihwr", 50), ("gih", 100), ("alsa", 5)]),
       ("W", [("gihwr", 55), ("gih", 50), ("alsa", 6)]),
       ("U", [("gihwr", 60), ("gih", 50), ("alsa", 7)])] 0 FILTER_BEST_GIHWR "alsa"
      = statOr [("gihwr", 60), ("gih", 50), ("alsa", 7)] "alsa" :=
  (c4_best_filter_indirection
      [("All Decks", [("gihwr", 50), ("gih", 100), ("alsa", 5)]),
       ("W", [("gihwr", 55), ("gih", 50), ("alsa", 6)]),
       ("U", [("gihwr", 60), ("gih", 50), ("alsa", 7)])] 0 "alsa").1
    [("gihwr", 60), ("gih", 50), ("alsa", 7)] (by decide)

/-- C7: resolving the ATA field returns the distinguished unknown sentinel
(`none`), never a numeric zero, whenever the card lacks `deck_colors`, the
requested filter is missing, the filter's statistics lack the ATA field, or
the ATA value is exactly zero; in every other case the raw numeric ATA
value is returned unchanged. -/
theorem c7_ata_unknown_sentinel (card : CardRec) (filt : String) :
    (card.deck_colors = none → process_ata card filt = none) ∧
    (∀ dc, card.deck_colors = some dc → deckLookup dc filt = none →
      process_ata card filt = none) ∧
    (∀ dc stats, card.deck_colors = some dc → deckLookup dc filt = some stats →
      statLookup stats "ata" = none → process_ata card filt = none) ∧
    (∀ dc stats, card.deck_colors = some dc → deckLookup dc filt = some stats →
      statLookup stats "ata" = some 0 → process_ata card filt = none) ∧
    (∀ dc stats v, card.deck_colors = some dc → deckLookup dc filt = some stats →
      statLookup stats "ata" = some v → v ≠ 0 → process_ata card filt = some v) ∧
    (∀ v, process_ata card filt = some v → v ≠ 0) := by
  refine ⟨?_, ?_, ?_, ?_, ?_, ?_⟩
  · intro h
    unfold process_ata
    rw [h]
  · intro dc h1 h2
    unfold process_ata
    rw [h1]
    simp only [h2]
  · intro dc stats h1 h2 h3
    unfold process_ata
    rw [h1]
    simp only [h2, h3]
  · intro dc stats h1 h2 h3
    unfold process_ata
    rw [h1]
    simp only [h2, h3]
    simp
  · intro dc stats v h1 h2 h3 h4
    unfold process_ata
    rw [h1]
    simp only [h2, h3]
    rw [if_neg h4]
  · intro v hv
    unfold process_ata at hv
    split at hv
    · simp at hv
    · split at hv
      · simp at hv
      · split at hv
        · simp at hv
        · split at hv
          · simp at hv
          · next h0 =>
            rw [Option.some_inj] at hv
            rw [← hv]
            exact h0

theorem c7_ata_unknown_sentinel_witness :
    process_ata ⟨some [("All Decks", [("ata", 0)])]⟩ "All Decks" = none ∧
    process_ata ⟨some [("All Decks", [("ata", 3)])]⟩ "All Decks" = some 3 :=
  ⟨(c7_ata_unknown_sentinel ⟨some [("All Decks", [("ata", 0)])]⟩ "All Decks").2.2.2.1
      [("All Decks", [("ata", 0)])] [("ata", 0)] rfl (by decide) (by decide),
   (c7_ata_unknown_sentinel ⟨some [("All Decks", [("ata", 3)])]⟩ "All Decks").2.2.2.2.1
      [("All Decks", [("ata", 3)])] [("ata", 3)] 3 rfl (by decide) (by decide) (by decide)⟩

/-- Range positivity at the baseline mean 50, std 10 (used to instantiate
the rating theorem). -/
lemma rating_range_pos_50_10 :
    (0:ℚ) < (50 + 10 * 2) - (50 + 10 * (-167/100)) := by norm_num

lemma rating_upper_le_80 : (50:ℚ) + 10 * 2 ≤ 80 := by norm_num

/-- C6: the 0.0–5.0 rating of `v` against baseline `(mean, std)` is
`(clamp(v, lower, upper) - lower) / (upper - lower) * 5` rounded to one
decimal place, with `upper = mean + std*2` and `lower = mean + std*(-1.67)`;
a value at or above `upper` rates exactly 5.0 (mean 50, std 10, v 70 → 5.0);
a zero or non-positive range yields 0.0 rather than a division fault. -/
theorem c6_rating_conversion (v mean std : ℚ) :
    (0 < (mean + std * 2) - (mean + std * (-167/100)) →
      process_rating v mean std
        = round1 ((clampQ v (mean + std * (-167/100)) (mean + std * 2)
            - (mean + std * (-167/100)))
            / ((mean + std * 2) - (mean + std * (-167/100))) * 5)) ∧
    ((mean + std * 2) - (mean + std * (-167/100)) ≤ 0 →
      process_rating v mean std = 0) ∧
    (0 < (mean + std * 2) - (mean + std * (-167/100)) → mean + std * 2 ≤ v →
      process_rating v mean std = 5) ∧
    process_rating 70 50 10 = 5 ∧
    process_rating 70 70 0 = 0 := by
  have hup : ∀ w, 0 < (mean + std * 2) - (mean + std * (-167/100)) →
      mean + std * 2 ≤ w →
      process_rating w mean std = 5 := by
    intro w h hw
    unfold process_rating
    rw [if_neg (not_le.mpr h)]
    have hlow : mean + std * (-167/100) ≤ mean + std * 2 := le_of_lt (by linarith)
    have hcl : clampQ w (mean + std * (-167/100)) (mean + std * 2) = mean + std * 2 := by
      rw [clampQ, min_eq_right hw, max_eq_right hlow]
    rw [hcl, div_self (by linarith : (mean + std * 2) - (mean + std * (-167/100)) ≠ 0)]
    norm_num [round1]
  refine ⟨?_, ?_, hup v, ?_, ?_⟩
  · intro h
    unfold process_rating
    rw [if_neg (not_le.mpr h)]
  · intro h
    unfold process_rating
    rw [if_pos h]
  · unfold process_rating
    rw [if_neg (by norm_num)]
    have hcl : clampQ 70 (50 + 10 * (-167/100)) (50 + 10 * 2) = 70 := by
      rw [clampQ]
      norm_num
    rw [hcl]
    norm_num [round1]
  · unfold process_rating
    rw [if_pos (by norm_num)]

theorem c6_rating_conversion_witness : process_rating 80 50 10 = 5 :=
  (c6_rating_conversion 80 50 10).2.2.1 rating_range_pos_50_10 rating_upper_le_80

/-- Nonzero total magnitude for the normalization example (used to
instantiate the normalization theorem). -/
lemma norm_example_total :
    ((([('W', 20), ('U', -10), ('B', 30), ('R', -5), ('G', 15)] : Scores)).map
      (fun e => |e.2|)).sum ≠ 0 := by norm_num

/-- C9: with `total_abs` the sum of the absolute per-color scores, each
color displays `score / total_abs * 100` with its sign preserved (scores
W:20, U:-10, B:30, R:-5, G:15 have total_abs 80 and display W = 25.0 and
U = -12.5), and a zero `total_abs` displays 0.0 for every color with no
division-by-zero fault. -/
theorem c9_score_normalization (scores : Scores) :
    ((scores.map (fun e => |e.2|)).sum ≠ 0 →
      normalize_color_scores scores
        = scores.map (fun e => (e.1, e.2 / (scores.map (fun x => |x.2|)).sum * 100))) ∧
    ((scores.map (fun e => |e.2|)).sum = 0 →
      normalize_color_scores scores = scores.map (fun e => (e.1, 0))) ∧
    (([('W', 20), ('U', -10), ('B', 30), ('R', -5), ('G', 15)] : Scores).map
      (fun e => |e.2|)).sum = 80 ∧
    normalize_color_scores [('W', 20), ('U', -10), ('B', 30), ('R', -5), ('G', 15)]
      = [('W', 25), ('U', -25/2), ('B', 75/2), ('R', -25/4), ('G', 75/4)] ∧
    normalize_color_scores [('W', 0), ('U', 0), ('B', 0), ('R', 0), ('G', 0)]
      = [('W', 0), ('U', 0), ('B', 0), ('R', 0), ('G', 0)] := by
  refine ⟨?_, ?_, by norm_num, ?_, ?_⟩
  · intro h
    unfold normalize_color_scores
    rw [if_neg h]
  · intro h
    unfold normalize_color_scores
    rw [if_pos h]
  · unfold normalize_color_scores
    rw [if_neg (by norm_num)]
    norm_num
  · unfold normalize_color_scores
    rw [if_pos (by norm_num)]
    rfl

theorem c9_score_normalization_witness :
    normalize_color_scores [('W', 20), ('U', -10), ('B', 30), ('R', -5), ('G', 15)]
      = ([('W', 20), ('U', -10), ('B', 30), ('R', -5), ('G', 15)] : Scores).map
          (fun e => (e.1, e.2 / (([('W', 20), ('U', -10), ('B', 30), ('R', -5), ('G', 15)] :
            Scores).map (fun x => |x.2|)).sum * 100)) :=
  (c9_score_normalization [('W', 20), ('U', -10), ('B', 30), ('R', -5), ('G', 15)]).1
    norm_example_total

/-! ### Case-insensitivity of the pip extractor -/

lemma char_ofNat_upper_toNat {n : Nat} (h1 : 97 ≤ n) (h2 : n ≤ 122) :
    (Char.ofNat (n - 32)).toNat = n - 32 := by
  interval_cases n <;> decide

lemma char_toUpper_toNat (c : Char) (h : 97 ≤ c.toNat ∧ c.toNat ≤ 122) :
    c.toUpper.toNat = c.toNat - 32 := by
  have h1 : c.toUpper = Char.ofNat (c.toNat - 32) := by
    simp only [Char.toUpper]
    rw [if_pos ⟨h.1, h.2⟩]
  rw [h1]
  exact char_ofNat_upper_toNat h.1 h.2

lemma char_toUpper_eq_self (c : Char) (h : ¬ (97 ≤ c.toNat ∧ c.toNat ≤ 122)) :
    c.toUpper = c := by
  simp only [Char.toUpper]
  rw [if_neg (fun hc => h ⟨hc.1, hc.2⟩)]

lemma char_toUpper_idem (c : Char) : c.toUpper.toUpper = c.toUpper := by
  by_cases h : 97 ≤ c.toNat ∧ c.toNat ≤ 122
  · have h2 := char_toUpper_toNat c h
    apply char_toUpper_eq_self
    rw [h2]
    omega
  · rw [char_toUpper_eq_self c h, char_toUpper_eq_self c h]

lemma char_toUpper_eq_big_iff (c d : Char) (hd : 122 < d.toNat) :
    (c.toUpper = d) ↔ (c = d) := by
  by_cases h : 97 ≤ c.toNat ∧ c.toNat ≤ 122
  · have h1 := char_toUpper_toNat c h
    constructor
    · intro he
      exfalso
      have h2 := congrArg Char.toNat he
      rw [h1] at h2
      omega
    · intro he
      exfalso
      have h2 := congrArg Char.toNat he
      omega
  · rw [char_toUpper_eq_self c h]

lemma tokenPips_upper (t : List Char) : tokenPips (t.map Char.toUpper) = tokenPips t := by
  have h : (t.map Char.toUpper).map Char.toUpper = t.map Char.toUpper := by
    rw [List.map_map]
    apply List.map_congr_left
    intro c _
    exact char_toUpper_idem c
  unfold tokenPips
  rw [h]

lemma tokenizeAux_upper : ∀ (l : List Char) (st : Option (List Char)),
    tokenizeAux (l.map Char.toUpper) (st.map (fun t => t.map Char.toUpper))
      = (tokenizeAux l st).map (fun t => t.map Char.toUpper) := by
  intro l
  induction l with
  | nil =>
    intro st
    cases st <;> rfl
  | cons ch rest ih =>
    intro st
    cases st with
    | none =>
      by_cases hc : ch = '{'
      · subst hc
        have hu : Char.toUpper '{' = '{' := by decide
        simp only [Option.map_none', List.map_cons, tokenizeAux, hu, if_pos]
        simpa using ih (some [])
      · have hu : ¬ (Char.toUpper ch = '{') :=
          fun he => hc ((char_toUpper_eq_big_iff ch '{' (by decide)).mp he)
        simp only [Option.map_none', List.map_cons, tokenizeAux, if_neg hu, if_neg hc]
        simpa using ih none
    | some acc =>
      by_cases hc : ch = '}'
      · subst hc
        have hu : Char.toUpper '}' = '}' := by decide
        simp only [Option.map_some', List.map_cons, tokenizeAux, hu, if_pos, List.map_reverse]
        simpa using ih none
      · have hu : ¬ (Char.toUpper ch = '}') :=
          fun he => hc ((char_toUpper_eq_big_iff ch '}' (by decide)).mp he)
        simp only [Option.map_some', List.map_cons, tokenizeAux, if_neg hu, if_neg hc]
        simpa using ih (some (ch :: acc))

lemma accumulateTokens_upper (toks : List (List Char)) :
    accumulateTokens (toks.map (fun t => t.map Char.toUpper)) = accumulateTokens toks := by
  unfold accumulateTokens
  rw [List.foldl_map]
  congr 1
  funext m t
  rw [tokenPips_upper]

lemma extract_upper (s : String) :
    extract_colored_pips (some (String.mk (s.toList.map Char.toUpper)))
      = extract_colored_pips (some s) := by
  show accumulateTokens (tokenizeAux (s.toList.map Char.toUpper) none)
      = accumulateTokens (tokenizeAux s.toList none)
  have h2 : tokenizeAux (s.toList.map Char.toUpper) none
      = (tokenizeAux s.toList none).map (fun t => t.map Char.toUpper) := by
    simpa using tokenizeAux_upper s.toList none
  rw [h2, accumulateTokens_upper]

/-- C8: pip extraction accumulates additively per bracketed token,
case-insensitively: a plain number or X contributes nothing, a single
color letter contributes 1, a two-color hybrid contributes 1/2 to each
color, generic-or-color and Phyrexian hybrids contribute 1/2 to their one
color; absent (`none`) or empty input yields an empty map; uppercasing the
input never changes the result. -/
theorem c8_pip_extraction (s : String) :
    extract_colored_pips none = [] ∧
    extract_colored_pips (some "") = [] ∧
    extract_colored_pips (some (String.mk (s.toList.map Char.toUpper)))
      = extract_colored_pips (some s) ∧
    extract_colored_pips (some "{2}") = [] ∧
    extract_colored_pips (some "{X}") = [] ∧
    extract_colored_pips (some "{U}") = [('U', 1)] ∧
    extract_colored_pips (some "{W/U}") = [('W', 1/2), ('U', 1/2)] ∧
    extract_colored_pips (some "{2/W}") = [('W', 1/2)] ∧
    extract_colored_pips (some "{W/P}") = [('W', 1/2)] ∧
    extract_colored_pips (some "{W}{W}") = [('W', 2)] ∧
    extract_colored_pips (some "{2/W}{2/U}") = [('W', 1/2), ('U', 1/2)] ∧
    extract_colored_pips (some "{w}") = extract_colored_pips (some "{W}") ∧
    extract_colored_pips (some "{G/P}{G}{G}") = [('G', 5/2)] := by
  refine ⟨rfl, rfl, extract_upper s, ?_, ?_, ?_, ?_, ?_, ?_, ?_, ?_, ?_, ?_⟩ <;>
    first
      | (simp +decide [extract_colored_pips, accumulateTokens, tokenize, tokenizeAux,
          tokenPips, addPip, isColor, colorLetters] <;> norm_num)
